import Mathlib

/-!
Shallow embedding of the TheiasSymphony capture-and-transport pipeline
(the windows-*-streamer.py variants).  Audio samples are modelled as
rationals: the operations the claims are about (pairwise averaging, zero
padding, truncation, maximum of absolute values, multiplication by a
fixed gain, comparison against the 0.001 threshold) are exact on the
inputs considered, so the rational model mirrors the source computation
step for step.
-/

/-- Every variant sets self.chunk_size = 1024; this is the spec's frameSize. -/
def chunk_size : Nat := 1024

/-- np.mean over axis 1 of reshape(-1, 2): per-position average of the two
interleaved channel samples.  A dangling odd sample is dropped by the
fallthrough pattern, but callers only reach this through downmix?, which
rules the odd case out. -/
def downmixPairs : List ℚ → List ℚ
  | a :: b :: rest => (a + b) / 2 :: downmixPairs rest
  | _ => []

/-- reshape(-1, 2) followed by the per-row mean.  reshape raises ValueError
on an odd-length buffer; the enclosing per-iteration except block then
abandons the iteration, modelled as none. -/
def downmix? (l : List ℚ) : Option (List ℚ) :=
  if l.length % 2 = 0 then some (downmixPairs l) else none

/-- Length normalization step shared by the universal, simple and wasapi
variants: right-pad a short buffer with zeros (np.pad), truncate a long one
to the first chunk_size samples, leave an exact-length buffer unchanged. -/
def normalizeLen (l : List ℚ) : List ℚ :=
  if l.length < chunk_size then l ++ List.replicate (chunk_size - l.length) 0
  else if chunk_size < l.length then l.take chunk_size
  else l

/-- np.max(np.abs(x)): peak absolute sample magnitude.  The fold seed 0 is
only reached on the empty buffer, on which np.max would raise; all uses on
conditioned frames are on buffers of length chunk_size. -/
def maxAbs (l : List ℚ) : ℚ := l.foldr (fun x m => max |x| m) 0

/-- Status display branch shared by the variants: a frame is shown as active
when max_amplitude > 0.001, silent otherwise. -/
def isSilent (m : ℚ) : Bool := if (1 : ℚ)/1000 < m then false else true

/-- One loop-body conditioning pass of UniversalAudioStreamer.start_streaming
and SimpleSystemStreamer.start_streaming, with the fixed amplification
constant abstracted as g (3.0 in the universal variant, 2.0 in the simple
variant): optional stereo downmix, length normalization, pre-gain activity
measurement, gain.  Returns the frame handed to sendto together with the
measured max_amplitude; none models an iteration aborted by the except
block (ValueError from reshape on an odd stereo buffer). -/
def condGain (g : ℚ) (use_channels : Nat) (raw : List ℚ) : Option (List ℚ × ℚ) :=
  match (if use_channels = 2 then downmix? raw else some raw) with
  | none => none
  | some a =>
    let b := normalizeLen a
    some (b.map (fun x => x * g), maxAbs b)

/-- UniversalAudioStreamer conditioning: gain constant 3.0. -/
def condUniversal (use_channels : Nat) (raw : List ℚ) : Option (List ℚ × ℚ) :=
  condGain 3 use_channels raw

/-- SimpleSystemStreamer conditioning: gain constant 2.0. -/
def condSimple (use_channels : Nat) (raw : List ℚ) : Option (List ℚ × ℚ) :=
  condGain 2 use_channels raw

/-- One loop-body pass of WASAPIStreamer.start_streaming: the stereo downmix
runs only when use_channels == 2 AND the raw buffer holds at least
chunk_size * 2 samples; then pad/truncate, measure, gain 2.5. -/
def condWasapi (use_channels : Nat) (raw : List ℚ) : Option (List ℚ × ℚ) :=
  match (if use_channels = 2 ∧ 2 * chunk_size ≤ raw.length then downmix? raw else some raw) with
  | none => none
  | some a =>
    let b := normalizeLen a
    some (b.map (fun x => x * (5/2)), maxAbs b)

/-- One loop-body pass of WindowsSystemAudioStreamer.start_streaming (the
auto variant): unconditional stereo downmix, NO length normalization, then
the frame is amplified by 2.0 and sent only when max_amplitude > 0.001.
Outer none: iteration aborted by the except block (reshape ValueError on an
odd buffer, or np.max raising on an empty downmixed buffer).  Inner option:
some frame when a datagram is sent, none when the silent frame is skipped. -/
def condAuto (raw : List ℚ) : Option (Option (List ℚ) × ℚ) :=
  match downmix? raw with
  | none => none
  | some a =>
    if a.isEmpty then none
    else
      let m := maxAbs a
      if (1 : ℚ)/1000 < m then some (some (a.map (fun x => x * 2)), m)
      else some (none, m)

/-- Datagram count of one universal/simple loop iteration: every iteration
that completes conditioning sends exactly one datagram. -/
def sentCountGain (g : ℚ) (use_channels : Nat) (raw : List ℚ) : Nat :=
  match condGain g use_channels raw with
  | some _ => 1
  | none => 0

/-- Datagram count of one auto-variant loop iteration. -/
def sentCountAuto (raw : List ℚ) : Nat :=
  match condAuto raw with
  | some (some _, _) => 1
  | _ => 0

/-- Fixed preference list of candidate sample rates in
WindowsAudioStreamer.start_streaming. -/
def sample_rates : List Nat := [44100, 48000, 22050, 16000]

/-- The rate-fallback loop of WindowsAudioStreamer.start_streaming over a
device abstracted as the set of rates at which self.audio.open succeeds.
Returns (chosen rate, rates attempted in order, capture handles still open
when the loop exits).  A successful open assigns the single kept handle and
breaks; a failed open raises before the assignment, so the except branch
finds stream None and its defensive close is a no-op. -/
def tryRates (accepts : Nat → Bool) : List Nat → Option Nat × List Nat × Nat
  | [] => (none, [], 0)
  | r :: rs =>
    if accepts r then (some r, [r], 1)
    else
      let p := tryRates accepts rs
      (p.1, r :: p.2.1, p.2.2)

/-- Device snapshot fields the scoring code reads. -/
structure DeviceInfo where
  name : List Char
  maxInputChannels : Nat
deriving DecidableEq

/-- Does the second list start with the first one? -/
def beginsWith : List Char → List Char → Bool
  | [], _ => true
  | _ :: _, [] => false
  | a :: as, b :: bs => a == b && beginsWith as bs

/-- Python substring containment: needle in hay. -/
def hasSubstr (needle : List Char) : List Char → Bool
  | [] => needle.isEmpty
  | c :: t => beginsWith needle (c :: t) || hasSubstr needle t

/-- Scoring ladder of WASAPIStreamer.find_system_audio_source: the name is
lowercased once, then the first matching elif rule fixes the score. -/
def deviceScore (name : List Char) : Nat :=
  let nl := name.map Char.toLower
  if hasSubstr ("stereo mix".toList) nl then 100
  else if hasSubstr ("what u hear".toList) nl then 90
  else if hasSubstr ("loopback".toList) nl then 85
  else if hasSubstr ("wave out mix".toList) nl then 80
  else if hasSubstr ("speakers".toList) nl && hasSubstr ("input".toList) nl then 70
  else if hasSubstr ("realtek".toList) nl &&
       (hasSubstr ("stereo".toList) nl || hasSubstr ("mix".toList) nl) then 60
  else if hasSubstr ("sound mapper".toList) nl then 50
  else 0

/-- Candidate collection loop: devices are enumerated by host index (list
position); a device whose info query raises is skipped (none); only
input-capable devices with a positive score are kept, as (score, index).
The source tuple also carries name and channel count, but those can never
influence the sort below because indices are pairwise distinct. -/
def catalogCandidates (devs : List (Option DeviceInfo)) : List (Nat × Nat) :=
  devs.enum.filterMap fun p =>
    match p.2 with
    | none => none
    | some d =>
      if 0 < d.maxInputChannels then
        let s := deviceScore d.name
        if 0 < s then some (s, p.1) else none
      else none

/-- Order produced by candidates.sort(reverse=True) on (score, index, ...)
tuples: descending lexicographic, so on equal scores the larger index is
placed first. -/
def keyGE (a b : Nat × Nat) : Prop := b.1 < a.1 ∨ (a.1 = b.1 ∧ b.2 ≤ a.2)

instance : DecidableRel keyGE := fun a b =>
  inferInstanceAs (Decidable (b.1 < a.1 ∨ (a.1 = b.1 ∧ b.2 ≤ a.2)))

instance : IsTotal (Nat × Nat) keyGE :=
  ⟨by intro a b; unfold keyGE; omega⟩

instance : IsTrans (Nat × Nat) keyGE :=
  ⟨by intro a b c; unfold keyGE; omega⟩

/-- candidates.sort(reverse=True): with pairwise-distinct keys the stable
sort is exactly a sort by the keyGE order. -/
def scoredCandidates (devs : List (Option DeviceInfo)) : List (Nat × Nat) :=
  List.insertionSort keyGE (catalogCandidates devs)

/-- Two equal-score candidate devices, used to exhibit the tie order. -/
def tieDemoDevs : List (Option DeviceInfo) :=
  [some ⟨"loopback a".toList, 2⟩, some ⟨"loopback b".toList, 2⟩]

/-- Greedy match of one 1-to-3-digit group of the validate_ip regex: the run
of leading digits must have length 1, 2 or 3, and the rest is returned.
Backtracking cannot produce further matches here, because a shortened digit
group leaves a digit where the pattern next demands a literal dot or the
end of the string. -/
def matchOctet (s : List Char) : Option (List Char) :=
  let ds := s.takeWhile Char.isDigit
  if 1 ≤ ds.length ∧ ds.length ≤ 3 then some (s.drop ds.length) else none

/-- One digit-group-then-dot unit of the validate_ip regex: after the digit
group the next character must be the literal dot. -/
def matchOctetDot (s : List Char) : Option (List Char) :=
  match matchOctet s with
  | some (c :: rest) => if c = '.' then some rest else none
  | _ => none

/-- validate_ip of the auto and universal variants: re.match against the
anchored pattern of three digit-group-dot units followed by a final
1-to-3-digit group.  Note that no numeric bound is applied to the groups. -/
def validate_ip (s : List Char) : Bool :=
  match matchOctetDot s with
  | none => false
  | some s1 =>
    match matchOctetDot s1 with
    | none => false
    | some s2 =>
      match matchOctetDot s2 with
      | none => false
      | some s3 =>
        match matchOctet s3 with
        | some [] => true
        | _ => false

/-- Acceptance test of WASAPIStreamer.detect_wsl_ip on the first stdout
token: the token is kept whenever it contains a dot at all (Python:
dot in ip); this variant runs no digit-pattern check. -/
def wasapi_ip_check (ip : List Char) : Bool := ip.contains '.'

/-- Split a string at every dot, Python str.split style with empty pieces
kept, used to state what a dotted quad is. -/
def splitDots : List Char → List (List Char)
  | [] => [[]]
  | c :: t =>
    if c = '.' then [] :: splitDots t
    else
      match splitDots t with
      | g :: gs => (c :: g) :: gs
      | [] => [[c]]

/-- A written octet: one to three decimal digits. -/
def octetText (g : List Char) : Bool :=
  decide (1 ≤ g.length) && decide (g.length ≤ 3) && g.all Char.isDigit

/-- Numeric value of a digit string. -/
def octetVal (g : List Char) : Nat :=
  g.foldl (fun v c => 10 * v + (c.toNat - 48)) 0

/-- Modelled from the spec: a syntactically valid IPv4 address is four
dot-separated octets, each representable in 8 bits (at most three digits,
value at most 255). -/
def specValidIPv4 (s : List Char) : Bool :=
  (splitDots s).length == 4 &&
    (splitDots s).all (fun g => octetText g && decide (octetVal g ≤ 255))

/-- Outcome of the subprocess.run(['wsl', 'hostname', '-I'], ...) call:
either it raises (timeout, missing binary, and so on) or it returns a
returncode together with the captured stdout text. -/
structure SubprocessOutcome where
  raises : Bool
  returncode : Int
  stdout : List Char
deriving DecidableEq

/-- Python str.split() whitespace classes used on the stdout text. -/
def isWsChar (c : Char) : Bool :=
  c == ' ' || c == '\t' || c == '\n' || c == '\r'

/-- result.stdout.strip().split()[0]: the first whitespace-separated token;
indexing an empty split raises IndexError, which the enclosing except block
swallows, modelled as none. -/
def firstToken (s : List Char) : Option (List Char) :=
  let s1 := s.dropWhile isWsChar
  if s1.isEmpty then none else some (s1.takeWhile (fun c => !isWsChar c))

/-- First phase of detect_wsl_ip (both the auto and the universal variant):
on a zero returncode take the first stdout token and keep it when
validate_ip accepts it; every other path (raise, nonzero returncode, empty
output, rejected token) falls through. -/
def wslQueryIp (env : SubprocessOutcome) : Option (List Char) :=
  if env.raises then none
  else if env.returncode = 0 then
    match firstToken env.stdout with
    | some ip => if validate_ip ip then some ip else none
    | none => none
  else none

/-- Candidate addresses probed by the auto variant's second phase: for base
in ['172.28.', '172.29.', '172.30.'] and i in range(48, 80), the address
base + str(i) + '.71'. -/
def scanCandidates : List (List Char) :=
  (["172.28.".toList, "172.29.".toList, "172.30.".toList]).flatMap
    (fun base => (List.range' 48 32).map
      (fun i => base ++ Nat.toDigits 10 i ++ (".71".toList)))

/-- detect_wsl_ip of WindowsSystemAudioStreamer (auto variant): query phase,
then the private-range scan with test_connection (which never raises: its
own except returns False), then the loopback fallback. -/
def detect_wsl_ip_auto (env : SubprocessOutcome)
    (test_connection : List Char → Bool) : List Char :=
  match wslQueryIp env with
  | some ip => ip
  | none =>
    match scanCandidates.find? test_connection with
    | some ip => ip
    | none => "127.0.0.1".toList

/-- detect_wsl_ip of UniversalAudioStreamer: query phase, then directly the
loopback fallback (this variant has no scan phase). -/
def detect_wsl_ip_universal (env : SubprocessOutcome) : List Char :=
  match wslQueryIp env with
  | some ip => ip
  | none => "127.0.0.1".toList

/-- What one capture-loop iteration can observe: a successful read, a read
or transport error (both ordinary Exceptions), or the operator's Ctrl+C
(KeyboardInterrupt, which is not an Exception subclass). -/
inductive CaptureEvent where
  | ok (raw : List ℚ)
  | readErr
  | sendErr
  | interrupt
deriving DecidableEq

/-- Spec state machine of the capture loop. -/
inductive LoopState where
  | running
  | stopped
deriving DecidableEq

/-- Loop-body transition of the auto, universal, simple and wasapi variants:
the body is wrapped in try/except Exception -> continue, so read and send
errors leave the loop running; only KeyboardInterrupt escapes the handler
and ends the loop. -/
def autoStep (s : LoopState) (e : CaptureEvent) : LoopState :=
  match s, e with
  | .stopped, _ => .stopped
  | .running, .interrupt => .stopped
  | .running, .ok _ => .running
  | .running, .readErr => .running
  | .running, .sendErr => .running

/-- Loop-body transition of WindowsAudioStreamer (fixed variant): the while
body has no inner try/except, so the first raised error propagates to the
outer handler and the loop terminates. -/
def fixedStep (s : LoopState) (e : CaptureEvent) : LoopState :=
  match s, e with
  | .stopped, _ => .stopped
  | .running, .ok _ => .running
  | .running, _ => .stopped

theorem downmixPairs_length : ∀ l : List ℚ, (downmixPairs l).length = l.length / 2
  | [] => by simp [downmixPairs]
  | [a] => by simp [downmixPairs]
  | a :: b :: t => by
    have ih := downmixPairs_length t
    simp [downmixPairs, ih]
    omega

theorem downmixPairs_getD : ∀ (l : List ℚ) (i : Nat), 2 * i + 1 < l.length →
    (downmixPairs l).getD i 0 = (l.getD (2 * i) 0 + l.getD (2 * i + 1) 0) / 2
  | [], i, h => by simp at h
  | [a], i, h => by simp at h
  | a :: b :: t, 0, h => by simp [downmixPairs]
  | a :: b :: t, i + 1, h => by
    have hlt : 2 * i + 1 < t.length := by simp at h; omega
    have ih := downmixPairs_getD t i hlt
    have e1 : 2 * (i + 1) = 2 * i + 1 + 1 := by omega
    rw [e1]
    simpa [downmixPairs] using ih

theorem downmixPairs_zero : ∀ l : List ℚ, (∀ x ∈ l, x = 0) → ∀ y ∈ downmixPairs l, y = 0
  | [], _ => by simp [downmixPairs]
  | [a], _ => by simp [downmixPairs]
  | a :: b :: t, h => by
    have ha : a = 0 := h a (by simp)
    have hb : b = 0 := h b (by simp)
    have ih := downmixPairs_zero t (fun x hx => h x (by simp [hx]))
    intro y hy
    simp [downmixPairs, ha, hb] at hy
    rcases hy with hy | hy
    · simpa using hy
    · exact ih y hy

theorem maxAbs_cons (a : ℚ) (l : List ℚ) : maxAbs (a :: l) = max |a| (maxAbs l) := rfl

theorem maxAbs_zero_of : ∀ l : List ℚ, (∀ x ∈ l, x = 0) → maxAbs l = 0
  | [], _ => rfl
  | a :: t, h => by
    have ha : a = 0 := h a (by simp)
    have ih := maxAbs_zero_of t (fun x hx => h x (by simp [hx]))
    rw [maxAbs_cons, ha, ih]
    simp

theorem maxAbs_map_mul (g : ℚ) : ∀ l : List ℚ, maxAbs (l.map (fun x => x * g)) = |g| * maxAbs l
  | [] => by simp [maxAbs]
  | a :: t => by
    have ih := maxAbs_map_mul g t
    rw [List.map_cons, maxAbs_cons, maxAbs_cons, ih, abs_mul, mul_comm |a| |g|,
      mul_max_of_nonneg _ _ (abs_nonneg g)]

theorem normalizeLen_length (l : List ℚ) : (normalizeLen l).length = chunk_size := by
  unfold normalizeLen
  rcases Nat.lt_trichotomy l.length chunk_size with h | h | h
  · rw [if_pos h]
    simp only [List.length_append, List.length_replicate]
    omega
  · rw [if_neg (by omega), if_neg (by omega)]
    omega
  · rw [if_neg (by omega), if_pos h]
    simp only [List.length_take]
    omega

theorem normalizeLen_zero (l : List ℚ) (h : ∀ x ∈ l, x = 0) :
    ∀ y ∈ normalizeLen l, y = 0 := by
  intro y hy
  unfold normalizeLen at hy
  rcases Nat.lt_trichotomy l.length chunk_size with hc | hc | hc
  · rw [if_pos hc] at hy
    rcases List.mem_append.mp hy with hy | hy
    · exact h y hy
    · exact List.eq_of_mem_replicate hy
  · rw [if_neg (by omega), if_neg (by omega)] at hy
    exact h y hy
  · rw [if_neg (by omega), if_pos hc] at hy
    exact h y (List.take_subset _ _ hy)

/-- Claim C1 (amended): in the universal, simple and wasapi variants every
conditioned frame handed to the sender has exactly chunk_size samples, by
zero right-padding or truncation; the auto variant, however, applies no
length normalization (see the counterexample), so the amended claim
restricts the invariant to the variants that normalize. -/
theorem c1_frame_length_normalized_variants (g : ℚ) (use_channels : Nat) (raw : List ℚ) :
    Option.all (fun r => r.1.length == chunk_size) (condGain g use_channels raw) = true ∧
    Option.all (fun r => r.1.length == chunk_size) (condWasapi use_channels raw) = true := by
  constructor
  · unfold condGain
    cases h : (if use_channels = 2 then downmix? raw else some raw) with
    | none => rfl
    | some a => simp [Option.all, normalizeLen_length]
  · unfold condWasapi
    cases h : (if use_channels = 2 ∧ 2 * chunk_size ≤ raw.length then downmix? raw else some raw) with
    | none => rfl
    | some a => simp [Option.all, normalizeLen_length]

/-- Claim C1 counterexample: the auto variant's loop hands a 4-sample stereo
read to the sender as a 2-sample frame (after its unconditional downmix and
gain), not as a chunk_size-sample frame: no padding is applied. -/
theorem c1_counterexample :
    condAuto ((1:ℚ)/2 :: (1:ℚ)/2 :: (1:ℚ)/2 :: (1:ℚ)/2 :: []) =
      some (some ((1:ℚ) :: (1:ℚ) :: []), (1:ℚ)/2) ∧
    ((1:ℚ) :: (1:ℚ) :: []).length ≠ chunk_size := by
  constructor
  · norm_num [condAuto, downmix?, downmixPairs, maxAbs, List.isEmpty, abs_of_nonneg]
  · decide

/-- Claim C3 (confirmed): on a raw stereo buffer of length chunk_size * 2
the downmix succeeds, produces exactly chunk_size samples, and the sample
at each position i is the unweighted arithmetic mean of the interleaved
pair at positions 2i and 2i+1. -/
theorem c3_downmix_mean (raw : List ℚ) (h : raw.length = 2 * chunk_size) :
    downmix? raw = some (downmixPairs raw) ∧
    (downmixPairs raw).length = chunk_size ∧
    ∀ i, i < chunk_size →
      (downmixPairs raw).getD i 0 = (raw.getD (2 * i) 0 + raw.getD (2 * i + 1) 0) / 2 := by
  refine ⟨?_, ?_, ?_⟩
  · unfold downmix?
    rw [if_pos (by omega)]
  · rw [downmixPairs_length, h]
    omega
  · intro i hi
    exact downmixPairs_getD raw i (by omega)

/-- Witness for c3_downmix_mean at a concrete full stereo read. -/
theorem c3_downmix_mean_witness :
    (List.replicate (2 * chunk_size) ((1:ℚ)/2)).length = 2 * chunk_size ∧
    (downmix? (List.replicate (2 * chunk_size) ((1:ℚ)/2)) =
        some (downmixPairs (List.replicate (2 * chunk_size) ((1:ℚ)/2))) ∧
      (downmixPairs (List.replicate (2 * chunk_size) ((1:ℚ)/2))).length = chunk_size ∧
      ∀ i, i < chunk_size →
        (downmixPairs (List.replicate (2 * chunk_size) ((1:ℚ)/2))).getD i 0 =
          ((List.replicate (2 * chunk_size) ((1:ℚ)/2)).getD (2 * i) 0 +
            (List.replicate (2 * chunk_size) ((1:ℚ)/2)).getD (2 * i + 1) 0) / 2) :=
  ⟨by simp, c3_downmix_mean _ (by simp)⟩

theorem condGain_eq_some (g : ℚ) (use_channels : Nat) (raw a : List ℚ)
    (h : (if use_channels = 2 then downmix? raw else some raw) = some a) :
    condGain g use_channels raw =
      some ((normalizeLen a).map (fun x => x * g), maxAbs (normalizeLen a)) := by
  unfold condGain
  rw [h]

theorem condAuto_eq_of_even (raw : List ℚ) (hev : raw.length % 2 = 0) :
    condAuto raw =
      if (downmixPairs raw).isEmpty then none
      else if (1:ℚ)/1000 < maxAbs (downmixPairs raw) then
        some (some ((downmixPairs raw).map (fun x => x * 2)), maxAbs (downmixPairs raw))
      else some (none, maxAbs (downmixPairs raw)) := by
  unfold condAuto downmix?
  rw [if_pos hev]

theorem condGain_some_inv (g : ℚ) (use_channels : Nat) (raw fr : List ℚ) (m : ℚ)
    (h : condGain g use_channels raw = some (fr, m)) :
    ∃ a, (if use_channels = 2 then downmix? raw else some raw) = some a ∧
      fr = (normalizeLen a).map (fun x => x * g) ∧ m = maxAbs (normalizeLen a) := by
  unfold condGain at h
  cases hdm : (if use_channels = 2 then downmix? raw else some raw) with
  | none => rw [hdm] at h; cases h
  | some a =>
    rw [hdm] at h
    have h' : some ((normalizeLen a).map (fun x => x * g), maxAbs (normalizeLen a)) =
        some (fr, m) := h
    injection h' with h''
    injection h'' with hfr hm
    exact ⟨a, rfl, hfr.symm, hm.symm⟩

/-- Claim C2 counterexample: in the auto variant a completed iteration on an
all-zero (silent) stereo buffer sends no datagram at all, and the gain is
not applied either: the transmission and the amplification sit inside the
max_amplitude > 0.001 branch. -/
theorem c2_counterexample :
    condAuto ((0:ℚ) :: 0 :: 0 :: 0 :: []) = some (none, 0) ∧
    sentCountAuto ((0:ℚ) :: 0 :: 0 :: 0 :: []) ≠ 1 := by
  have h : condAuto ((0:ℚ) :: 0 :: 0 :: 0 :: []) = some (none, 0) := by
    norm_num [condAuto, downmix?, downmixPairs, maxAbs, List.isEmpty]
  refine ⟨h, ?_⟩
  unfold sentCountAuto
  rw [h]
  decide

/-- Claim C2 (amended): in the universal and simple variants every completed
iteration sends exactly one datagram, silent or not, with the gain applied
unconditionally; the auto variant instead sends (and amplifies) exactly when
the pre-gain peak exceeds 0.001, skipping silent frames. -/
theorem c2_send_policy (g : ℚ) (raw : List ℚ)
    (hev : raw.length % 2 = 0) (hne : raw ≠ []) :
    sentCountGain g 2 raw = 1 ∧
    (sentCountAuto raw = 1 ↔ (1:ℚ)/1000 < maxAbs (downmixPairs raw)) ∧
    (∀ (ch : Nat) (raw2 : List ℚ), ch ≠ 2 → sentCountGain g ch raw2 = 1) := by
  have hdm : downmix? raw = some (downmixPairs raw) := by
    unfold downmix?
    rw [if_pos hev]
  have hlen : 1 ≤ raw.length := by
    cases raw with
    | nil => exact absurd rfl hne
    | cons a t => simp
  refine ⟨?_, ?_, ?_⟩
  · unfold sentCountGain
    rw [condGain_eq_some g 2 raw (downmixPairs raw) (by rw [if_pos rfl]; exact hdm)]
  · have hdp : (downmixPairs raw).isEmpty = false := by
      cases hE : (downmixPairs raw).isEmpty with
      | false => rfl
      | true =>
        have hnil := List.isEmpty_iff.mp hE
        have hl := downmixPairs_length raw
        rw [hnil] at hl
        simp at hl
        omega
    unfold sentCountAuto
    rw [condAuto_eq_of_even raw hev, hdp]
    by_cases hm : (1:ℚ)/1000 < maxAbs (downmixPairs raw)
    · rw [if_pos hm]
      exact iff_of_true rfl hm
    · rw [if_neg hm]
      exact iff_of_false (fun hx => Nat.noConfusion hx) hm
  · intro ch raw2 hch
    unfold sentCountGain
    rw [condGain_eq_some g ch raw2 raw2 (by rw [if_neg hch])]

/-- Witness for c2_send_policy at a concrete active stereo read. -/
theorem c2_send_policy_witness :
    (((1:ℚ)/2 :: (1:ℚ)/2 :: []).length % 2 = 0 ∧ ((1:ℚ)/2 :: (1:ℚ)/2 :: []) ≠ []) ∧
    (sentCountGain 3 2 ((1:ℚ)/2 :: (1:ℚ)/2 :: []) = 1 ∧
      (sentCountAuto ((1:ℚ)/2 :: (1:ℚ)/2 :: []) = 1 ↔
        (1:ℚ)/1000 < maxAbs (downmixPairs ((1:ℚ)/2 :: (1:ℚ)/2 :: []))) ∧
      (∀ (ch : Nat) (raw2 : List ℚ), ch ≠ 2 → sentCountGain 3 ch raw2 = 1)) :=
  ⟨⟨by decide, by simp⟩, c2_send_policy 3 _ (by decide) (by simp)⟩

/-- Claim C4 (confirmed): the reported activity level is the pre-gain peak:
the frame actually sent has peak |gain| times the reported level; a frame is
classified silent exactly when the reported level is at most 0.001; and an
all-zero raw buffer is classified silent whatever the gain constant is. -/
theorem c4_activity_pre_gain (g : ℚ) (use_channels : Nat) (raw : List ℚ)
    (fr : List ℚ) (m : ℚ) (h : condGain g use_channels raw = some (fr, m)) :
    maxAbs fr = |g| * m ∧
    (isSilent m = true ↔ m ≤ 1/1000) ∧
    ((∀ x ∈ raw, x = 0) → isSilent m = true) := by
  obtain ⟨a, ha, hfr, hm⟩ := condGain_some_inv g use_channels raw fr m h
  have hsil : ∀ q : ℚ, isSilent q = true ↔ q ≤ 1/1000 := by
    intro q
    unfold isSilent
    split
    · rename_i hq
      exact iff_of_false (by simp) (not_le.mpr hq)
    · rename_i hq
      exact iff_of_true rfl (not_lt.mp hq)
  refine ⟨?_, hsil m, ?_⟩
  · rw [hfr, hm, maxAbs_map_mul]
  · intro hz
    have haz : ∀ x ∈ a, x = 0 := by
      by_cases hc : use_channels = 2
      · rw [if_pos hc] at ha
        unfold downmix? at ha
        by_cases he : raw.length % 2 = 0
        · rw [if_pos he] at ha
          injection ha with ha
          subst ha
          exact downmixPairs_zero raw hz
        · rw [if_neg he] at ha
          cases ha
      · rw [if_neg hc] at ha
        injection ha with ha
        subst ha
        exact hz
    have hm0 : m = 0 := by
      rw [hm]
      exact maxAbs_zero_of _ (normalizeLen_zero a haz)
    rw [hm0, hsil 0]
    norm_num

/-- Witness for c4_activity_pre_gain at a concrete all-zero mono read. -/
theorem c4_activity_pre_gain_witness :
    condGain 3 1 (List.replicate chunk_size (0:ℚ)) =
      some (List.replicate chunk_size (0:ℚ), 0) ∧
    (maxAbs (List.replicate chunk_size (0:ℚ)) = |(3:ℚ)| * 0 ∧
      (isSilent 0 = true ↔ (0:ℚ) ≤ 1/1000) ∧
      ((∀ x ∈ List.replicate chunk_size (0:ℚ), x = 0) → isSilent 0 = true)) := by
  have hz : ∀ x ∈ List.replicate chunk_size (0:ℚ), x = 0 :=
    fun x hx => List.eq_of_mem_replicate hx
  have hnl : normalizeLen (List.replicate chunk_size (0:ℚ)) =
      List.replicate chunk_size (0:ℚ) := by
    unfold normalizeLen
    rw [if_neg (by simp), if_neg (by simp)]
  have hc : condGain 3 1 (List.replicate chunk_size (0:ℚ)) =
      some (List.replicate chunk_size (0:ℚ), 0) := by
    rw [condGain_eq_some 3 1 _ _ (by rw [if_neg (by omega)]), hnl,
      maxAbs_zero_of _ hz, List.map_replicate]
    norm_num
  exact ⟨hc, c4_activity_pre_gain 3 1 _ _ _ hc⟩

/-- Claim C10 (confirmed): in the wasapi variant with two capture channels
the stereo downmix runs only when the raw buffer has at least chunk_size * 2
samples; any shorter buffer skips the downmix and is padded or truncated
as-is, so the transmitted frame keeps the interleaved two-channel samples
instead of per-position channel averages. -/
theorem c10_wasapi_downmix_guard (raw : List ℚ) :
    (raw.length < 2 * chunk_size →
      condWasapi 2 raw =
        some ((normalizeLen raw).map (fun x => x * (5/2)),
          maxAbs (normalizeLen raw))) ∧
    (2 * chunk_size ≤ raw.length → raw.length % 2 = 0 →
      condWasapi 2 raw =
        some ((normalizeLen (downmixPairs raw)).map (fun x => x * (5/2)),
          maxAbs (normalizeLen (downmixPairs raw)))) := by
  constructor
  · intro hlt
    unfold condWasapi
    rw [if_neg (by omega)]
  · intro hge hev
    unfold condWasapi
    rw [if_pos ⟨rfl, hge⟩]
    unfold downmix?
    rw [if_pos hev]

/-- Witness for c10_wasapi_downmix_guard at a concrete short stereo read. -/
theorem c10_wasapi_downmix_guard_witness :
    ((1:ℚ) :: 2 :: 3 :: 4 :: []).length < 2 * chunk_size ∧
    condWasapi 2 ((1:ℚ) :: 2 :: 3 :: 4 :: []) =
      some ((normalizeLen ((1:ℚ) :: 2 :: 3 :: 4 :: [])).map (fun x => x * (5/2)),
        maxAbs (normalizeLen ((1:ℚ) :: 2 :: 3 :: 4 :: []))) :=
  ⟨by decide, (c10_wasapi_downmix_guard _).1 (by decide)⟩

theorem tryRates_all_fail (a : Nat → Bool) : ∀ l : List Nat, (∀ r ∈ l, a r = false) →
    tryRates a l = (none, l, 0)
  | [], _ => rfl
  | r :: rs, h => by
    have hr : a r = false := h r (by simp)
    have ih := tryRates_all_fail a rs (fun x hx => h x (by simp [hx]))
    simp [tryRates, hr, ih]

theorem tryRates_none (a : Nat → Bool) : ∀ l : List Nat, (tryRates a l).1 = none →
    ∀ r ∈ l, a r = false
  | [], _, r, hr => absurd hr (by simp)
  | x :: xs, h, r, hr => by
    unfold tryRates at h
    by_cases hx : a x = true
    · rw [if_pos hx] at h
      simp at h
    · rw [if_neg hx] at h
      have h2 : (tryRates a xs).1 = none := h
      rcases List.mem_cons.mp hr with rfl | hr'
      · cases hax : a r with
        | false => rfl
        | true => exact absurd hax hx
      · exact tryRates_none a xs h2 r hr'

theorem tryRates_some (a : Nat → Bool) : ∀ (l : List Nat) (r : Nat),
    (tryRates a l).1 = some r →
    a r = true ∧
    (tryRates a l).2.1 = l.takeWhile (fun x => !a x) ++ [r] ∧
    (tryRates a l).2.2 = 1
  | [], r, h => absurd h (by simp [tryRates])
  | x :: xs, r, h => by
    by_cases hx : a x = true
    · unfold tryRates at h ⊢
      rw [if_pos hx] at h ⊢
      have hxr : x = r := by simpa using h
      subst hxr
      refine ⟨hx, ?_, rfl⟩
      rw [List.takeWhile_cons]
      simp [hx]
    · unfold tryRates at h ⊢
      rw [if_neg hx] at h ⊢
      have h2 : (tryRates a xs).1 = some r := h
      obtain ⟨h3, h4, h5⟩ := tryRates_some a xs r h2
      have hx' : a x = false := by
        cases hax : a x with
        | false => rfl
        | true => exact absurd hax hx
      refine ⟨h3, ?_, h5⟩
      show x :: (tryRates a xs).2.1 = (x :: xs).takeWhile (fun y => !a y) ++ [r]
      rw [List.takeWhile_cons]
      simp [hx', h4]

/-- Claim C5 (confirmed): the rate-fallback loop attempts 44100, 48000,
22050, 16000 in that fixed order; it keeps the first accepted rate,
attempting nothing further (the attempted list is the rejected prefix plus
the accepted rate, and exactly the one kept handle is open); and it signals
failure exactly when every listed rate is rejected, in which case all four
rates were attempted and no handle is left open. -/
theorem c5_negotiation (accepts : Nat → Bool) :
    (tryRates accepts sample_rates = (none, sample_rates, 0) ↔
      ∀ r ∈ sample_rates, accepts r = false) ∧
    ∀ r, (tryRates accepts sample_rates).1 = some r →
      accepts r = true ∧
      (tryRates accepts sample_rates).2.1 =
        sample_rates.takeWhile (fun x => !accepts x) ++ [r] ∧
      (tryRates accepts sample_rates).2.2 = 1 := by
  constructor
  · constructor
    · intro h
      exact tryRates_none accepts sample_rates (by rw [h])
    · intro h
      exact tryRates_all_fail accepts sample_rates h
  · intro r h
    exact tryRates_some accepts sample_rates r h

/-- Witness for c5_negotiation: a device accepting only 48000 keeps that
rate after attempting 44100 first. -/
theorem c5_negotiation_witness :
    ((tryRates (fun r => r == 48000) sample_rates).1 = some 48000) ∧
    ((fun r => r == 48000) 48000 = true ∧
      (tryRates (fun r => r == 48000) sample_rates).2.1 =
        sample_rates.takeWhile (fun x => !(x == 48000)) ++ [48000] ∧
      (tryRates (fun r => r == 48000) sample_rates).2.2 = 1) :=
  ⟨by decide, (c5_negotiation (fun r => r == 48000)).2 48000 (by decide)⟩

theorem fixedStep_stopped : ∀ evs : List CaptureEvent,
    List.foldl fixedStep LoopState.stopped evs = LoopState.stopped
  | [] => rfl
  | e :: t => by
    have ih := fixedStep_stopped t
    simpa [fixedStep] using ih

/-- Claim C9 counterexample: in the fixed variant a single read error inside
the capture loop terminates it (the exception propagates to the handler
outside the while loop), rather than leaving the loop running as claimed. -/
theorem c9_counterexample :
    List.foldl fixedStep LoopState.running (CaptureEvent.readErr :: []) ≠ LoopState.running ∧
    List.foldl fixedStep LoopState.running (CaptureEvent.readErr :: []) = LoopState.stopped := by
  decide

/-- Claim C9 (amended): in the variants whose loop body traps Exceptions
(auto, universal, simple, wasapi) any sequence of read and send errors
leaves the loop running; in the fixed variant the first per-iteration error
terminates the loop for good. -/
theorem c9_loop_resilience :
    (∀ evs : List CaptureEvent, (∀ e ∈ evs, e ≠ CaptureEvent.interrupt) →
      List.foldl autoStep LoopState.running evs = LoopState.running) ∧
    (∀ evs : List CaptureEvent,
      List.foldl fixedStep LoopState.running (CaptureEvent.readErr :: evs) =
        LoopState.stopped) := by
  constructor
  · intro evs
    induction evs with
    | nil => intro _; rfl
    | cons e t ih =>
      intro h
      have he := h e (by simp)
      have h' : ∀ x ∈ t, x ≠ CaptureEvent.interrupt := fun x hx => h x (by simp [hx])
      have hstep : autoStep LoopState.running e = LoopState.running := by
        cases e with
        | ok raw => rfl
        | readErr => rfl
        | sendErr => rfl
        | interrupt => exact absurd rfl he
      rw [List.foldl_cons, hstep]
      exact ih h'
  · intro evs
    rw [List.foldl_cons]
    exact fixedStep_stopped evs

/-- Witness for c9_loop_resilience: a read error followed by a send error
leaves the trapping loop running. -/
theorem c9_loop_resilience_witness :
    (∀ e ∈ (CaptureEvent.readErr :: CaptureEvent.sendErr :: []),
      e ≠ CaptureEvent.interrupt) ∧
    List.foldl autoStep LoopState.running
      (CaptureEvent.readErr :: CaptureEvent.sendErr :: []) = LoopState.running :=
  ⟨by decide, c9_loop_resilience.1 _ (by decide)⟩

theorem catalogCandidates_pos (devs : List (Option DeviceInfo)) :
    ∀ p ∈ catalogCandidates devs, 0 < p.1 := by
  intro p hp
  unfold catalogCandidates at hp
  rcases List.mem_filterMap.mp hp with ⟨q, _, hq⟩
  rcases q with ⟨i, od⟩
  cases od with
  | none => cases hq
  | some d =>
    have hq' : (if 0 < d.maxInputChannels then
        (if 0 < deviceScore d.name then some (deviceScore d.name, i) else none)
        else none) = some p := hq
    by_cases h1 : 0 < d.maxInputChannels
    · rw [if_pos h1] at hq'
      by_cases h2 : 0 < deviceScore d.name
      · rw [if_pos h2] at hq'
        injection hq' with hq''
        subst hq''
        exact h2
      · rw [if_neg h2] at hq'
        cases hq'
    · rw [if_neg h1] at hq'
      cases hq'

/-- Claim C6 counterexample: two candidates that both score 85 come back
with the higher device index first (candidates.sort(reverse=True) sorts the
(score, index, ...) tuples in descending lexicographic order), refuting the
claimed lower-index tie-break. -/
theorem c6_counterexample :
    scoredCandidates tieDemoDevs = ((85, 1) :: (85, 0) :: []) ∧
    scoredCandidates tieDemoDevs ≠ ((85, 0) :: (85, 1) :: []) := by decide

/-- Claim C6 (amended): scoring follows the keyword table exactly and
unmatched or input-less devices are excluded, but the descending order
breaks score ties by the HIGHER device index, not the lower one. -/
theorem c6_device_scoring (devs : List (Option DeviceInfo)) :
    List.Pairwise keyGE (scoredCandidates devs) ∧
    (∀ p, p ∈ scoredCandidates devs ↔ p ∈ catalogCandidates devs) ∧
    (∀ p ∈ scoredCandidates devs, 0 < p.1) ∧
    (deviceScore ("Stereo Mix (Realtek Audio)".toList) = 100 ∧
      deviceScore ("What U Hear".toList) = 90 ∧
      deviceScore ("WASAPI Loopback".toList) = 85 ∧
      deviceScore ("Wave Out Mix".toList) = 80 ∧
      deviceScore ("Speakers (Realtek) Input".toList) = 70 ∧
      deviceScore ("Realtek Stereo Input".toList) = 60 ∧
      deviceScore ("Microsoft Sound Mapper".toList) = 50 ∧
      deviceScore ("Realtek Microphone".toList) = 0) := by
  refine ⟨?_, ?_, ?_, ?_⟩
  · exact List.sorted_insertionSort keyGE (catalogCandidates devs)
  · intro p
    exact (List.perm_insertionSort keyGE (catalogCandidates devs)).mem_iff
  · intro p hp
    exact catalogCandidates_pos devs p
      ((List.perm_insertionSort keyGE (catalogCandidates devs)).mem_iff.mp hp)
  · exact ⟨by decide, by decide, by decide, by decide, by decide, by decide,
      by decide, by decide⟩

/-- Witness for c6_device_scoring on the two-device tie example. -/
theorem c6_device_scoring_witness :
    ((85, 1) ∈ scoredCandidates tieDemoDevs ↔
      (85, 1) ∈ catalogCandidates tieDemoDevs) ∧
    ((85, 1) ∈ scoredCandidates tieDemoDevs ∧ 0 < (85, 1).1) :=
  ⟨(c6_device_scoring tieDemoDevs).2.1 (85, 1),
    by decide,
    (c6_device_scoring tieDemoDevs).2.2.1 (85, 1) (by decide)⟩

theorem isDigit_ne_dot (c : Char) (h : c.isDigit = true) : c ≠ '.' := by
  intro hc
  subst hc
  exact absurd h (by decide)

theorem takeWhile_all (p : Char → Bool) : ∀ s : List Char, (s.takeWhile p).all p = true
  | [] => rfl
  | c :: t => by
    rw [List.takeWhile_cons]
    by_cases hc : p c = true
    · rw [if_pos hc]
      simp [hc, takeWhile_all p t]
    · rw [if_neg hc]
      rfl

theorem takeWhile_all_self {p : Char → Bool} : ∀ g : List Char, (∀ c ∈ g, p c = true) →
    g.takeWhile p = g
  | [], _ => rfl
  | c :: t, h => by
    rw [List.takeWhile_cons, if_pos (h c (by simp)),
      takeWhile_all_self t (fun x hx => h x (by simp [hx]))]

theorem takeWhile_append_stop {p : Char → Bool} (d : Char) (hd : p d = false) :
    ∀ (g t : List Char), (∀ c ∈ g, p c = true) →
    (g ++ d :: t).takeWhile p = g
  | [], t, _ => by
    rw [List.nil_append, List.takeWhile_cons, if_neg (by simp [hd])]
  | c :: g', t, h => by
    rw [List.cons_append, List.takeWhile_cons, if_pos (h c (by simp)),
      takeWhile_append_stop d hd g' t (fun x hx => h x (by simp [hx]))]

theorem drop_takeWhile_length (p : Char → Bool) (s : List Char) :
    s.drop (s.takeWhile p).length = s.dropWhile p := by
  have h := List.drop_left (s.takeWhile p) (s.dropWhile p)
  rwa [List.takeWhile_append_dropWhile] at h

theorem matchOctet_some {s r : List Char} (h : matchOctet s = some r) :
    octetText (s.takeWhile Char.isDigit) = true ∧ s = s.takeWhile Char.isDigit ++ r := by
  unfold matchOctet at h
  by_cases hc : 1 ≤ (s.takeWhile Char.isDigit).length ∧ (s.takeWhile Char.isDigit).length ≤ 3
  · rw [if_pos hc] at h
    injection h with h'
    refine ⟨?_, ?_⟩
    · simp [octetText, hc.1, hc.2, takeWhile_all]
    · rw [← h', drop_takeWhile_length, List.takeWhile_append_dropWhile]
  · rw [if_neg hc] at h
    cases h

theorem matchOctet_append {g : List Char} (hg : octetText g = true) :
    (∀ t, matchOctet (g ++ '.' :: t) = some ('.' :: t)) ∧ matchOctet g = some [] := by
  have hg' := hg
  simp only [octetText, Bool.and_eq_true, decide_eq_true_eq] at hg'
  obtain ⟨⟨h1, h3⟩, h2⟩ := hg'
  have hall : ∀ c ∈ g, Char.isDigit c = true := List.all_eq_true.mp h2
  constructor
  · intro t
    unfold matchOctet
    rw [takeWhile_append_stop '.' (by decide) g t hall, if_pos ⟨h1, h3⟩, List.drop_left]
  · unfold matchOctet
    rw [takeWhile_all_self g hall, if_pos ⟨h1, h3⟩, List.drop_length]

theorem matchOctetDot_some {s r : List Char} (h : matchOctetDot s = some r) :
    ∃ g, octetText g = true ∧ (∀ c ∈ g, c ≠ '.') ∧ s = g ++ '.' :: r := by
  unfold matchOctetDot at h
  cases ho : matchOctet s with
  | none => rw [ho] at h; cases h
  | some r1 =>
    rw [ho] at h
    cases r1 with
    | nil => exact Option.noConfusion h
    | cons d t =>
      have h' : (if d = '.' then some t else none) = some r := h
      by_cases hd : d = '.'
      · rw [if_pos hd] at h'
        injection h' with h''
        subst h''
        subst hd
        obtain ⟨hoct, hs⟩ := matchOctet_some ho
        refine ⟨s.takeWhile Char.isDigit, hoct, ?_, hs⟩
        intro c hc
        exact isDigit_ne_dot c (List.all_eq_true.mp (takeWhile_all Char.isDigit s) c hc)
      · rw [if_neg hd] at h'
        exact Option.noConfusion h'

theorem matchOctetDot_append {g : List Char} (hg : octetText g = true) (t : List Char) :
    matchOctetDot (g ++ '.' :: t) = some t := by
  unfold matchOctetDot
  rw [(matchOctet_append hg).1 t]
  simp

theorem splitDots_ne_nil : ∀ s : List Char, splitDots s ≠ []
  | [] => by simp [splitDots]
  | c :: t => by
    unfold splitDots
    by_cases hc : c = '.'
    · rw [if_pos hc]
      simp
    · rw [if_neg hc]
      cases hs : splitDots t with
      | nil => simp
      | cons g gs => simp

theorem splitDots_dotfree_append : ∀ (g : List Char), (∀ c ∈ g, c ≠ '.') →
    ∀ t, splitDots (g ++ '.' :: t) = g :: splitDots t
  | [], _, t => by
    rw [List.nil_append]
    conv_lhs => unfold splitDots
    rw [if_pos rfl]
  | c :: g', hg, t => by
    have hc : c ≠ '.' := hg c (by simp)
    have ih := splitDots_dotfree_append g' (fun x hx => hg x (by simp [hx])) t
    rw [List.cons_append]
    conv_lhs => unfold splitDots
    rw [if_neg hc, ih]

theorem splitDots_dotfree_self : ∀ (g : List Char), (∀ c ∈ g, c ≠ '.') →
    splitDots g = g :: []
  | [], _ => rfl
  | c :: g', hg => by
    have hc : c ≠ '.' := hg c (by simp)
    have ih := splitDots_dotfree_self g' (fun x hx => hg x (by simp [hx]))
    unfold splitDots
    rw [if_neg hc, ih]

theorem splitDots_cons_inv : ∀ (s g : List Char) (gs : List (List Char)),
    splitDots s = g :: gs → (∀ c ∈ g, c ≠ '.') ∧
      ((gs = [] ∧ s = g) ∨ ∃ t, s = g ++ '.' :: t ∧ splitDots t = gs)
  | [], g, gs, h => by
    have h' : (([] : List Char) :: [] : List (List Char)) = g :: gs := h
    injection h' with h1 h2
    subst h1
    subst h2
    exact ⟨by simp, Or.inl ⟨rfl, rfl⟩⟩
  | c :: t, g, gs, h => by
    by_cases hc : c = '.'
    · subst hc
      have h' : ([] : List Char) :: splitDots t = g :: gs := by
        unfold splitDots at h
        rw [if_pos rfl] at h
        exact h
      injection h' with h1 h2
      subst h1
      exact ⟨by simp, Or.inr ⟨t, by simp, h2⟩⟩
    · unfold splitDots at h
      rw [if_neg hc] at h
      cases hs : splitDots t with
      | nil => exact absurd hs (splitDots_ne_nil t)
      | cons g' gs' =>
        rw [hs] at h
        have h' : (c :: g') :: gs' = g :: gs := h
        injection h' with h1 h2
        subst h1
        subst h2
        obtain ⟨hdotfree, hrest⟩ := splitDots_cons_inv t g' gs' hs
        refine ⟨?_, ?_⟩
        · intro x hx
          rcases List.mem_cons.mp hx with rfl | hx'
          · exact hc
          · exact hdotfree x hx'
        · rcases hrest with ⟨hnil, hteq⟩ | ⟨u, hteq, hsplit⟩
          · exact Or.inl ⟨hnil, by rw [hteq]⟩
          · exact Or.inr ⟨u, by rw [hteq, List.cons_append], hsplit⟩

theorem list_length_eq_four {α : Type _} : ∀ {l : List α}, l.length = 4 →
    ∃ a b c d, l = a :: b :: c :: d :: []
  | a :: b :: c :: d :: [], _ => ⟨a, b, c, d, rfl⟩
  | [], h => by simp at h
  | a :: [], h => by simp at h
  | a :: b :: [], h => by simp at h
  | a :: b :: c :: [], h => by simp at h
  | a :: b :: c :: d :: e :: t, h => by simp at h

theorem validate_ip_build {g1 g2 g3 g4 : List Char}
    (o1 : octetText g1 = true) (o2 : octetText g2 = true)
    (o3 : octetText g3 = true) (o4 : octetText g4 = true) :
    validate_ip (g1 ++ '.' :: (g2 ++ '.' :: (g3 ++ '.' :: g4))) = true := by
  unfold validate_ip
  simp only [matchOctetDot_append o1, matchOctetDot_append o2, matchOctetDot_append o3,
    (matchOctet_append o4).2]

theorem validate_ip_iff (s : List Char) :
    validate_ip s = true ↔
      ((splitDots s).length = 4 ∧ ∀ g ∈ splitDots s, octetText g = true) := by
  constructor
  · intro h
    unfold validate_ip at h
    split at h
    · exact Bool.noConfusion h
    · rename_i s1 h1
      split at h
      · exact Bool.noConfusion h
      · rename_i s2 h2
        split at h
        · exact Bool.noConfusion h
        · rename_i s3 h3
          split at h
          case _ =>
            rename_i h4
            obtain ⟨g1, hg1, hd1, hs0⟩ := matchOctetDot_some h1
            obtain ⟨g2, hg2, hd2, hs1⟩ := matchOctetDot_some h2
            obtain ⟨g3, hg3, hd3, hs2⟩ := matchOctetDot_some h3
            obtain ⟨hg4, hs3⟩ := matchOctet_some h4
            rw [List.append_nil] at hs3
            have hd4 : ∀ c ∈ s3, c ≠ '.' := by
              intro c hc
              rw [hs3] at hc
              exact isDigit_ne_dot c
                (List.all_eq_true.mp (takeWhile_all Char.isDigit s3) c hc)
            have hg4' : octetText s3 = true := by rw [hs3]; exact hg4
            have hsplit : splitDots s = g1 :: g2 :: g3 :: s3 :: [] := by
              rw [hs0, splitDots_dotfree_append g1 hd1, hs1,
                splitDots_dotfree_append g2 hd2, hs2,
                splitDots_dotfree_append g3 hd3,
                splitDots_dotfree_self s3 hd4]
            rw [hsplit]
            refine ⟨rfl, ?_⟩
            intro g hg
            simp at hg
            rcases hg with rfl | rfl | rfl | rfl
            · exact hg1
            · exact hg2
            · exact hg3
            · exact hg4'
          case _ =>
            exact Bool.noConfusion h
  · rintro ⟨hlen, hoct⟩
    obtain ⟨g1, g2, g3, g4, hsp⟩ := list_length_eq_four hlen
    have o1 : octetText g1 = true := hoct g1 (by rw [hsp]; simp)
    have o2 : octetText g2 = true := hoct g2 (by rw [hsp]; simp)
    have o3 : octetText g3 = true := hoct g3 (by rw [hsp]; simp)
    have o4 : octetText g4 = true := hoct g4 (by rw [hsp]; simp)
    obtain ⟨_, hrest1⟩ := splitDots_cons_inv s g1 (g2 :: g3 :: g4 :: []) hsp
    rcases hrest1 with ⟨hne, _⟩ | ⟨t1, hs0, hsp1⟩
    · exact List.noConfusion hne
    obtain ⟨_, hrest2⟩ := splitDots_cons_inv t1 g2 (g3 :: g4 :: []) hsp1
    rcases hrest2 with ⟨hne, _⟩ | ⟨t2, hs1, hsp2⟩
    · exact List.noConfusion hne
    obtain ⟨_, hrest3⟩ := splitDots_cons_inv t2 g3 (g4 :: []) hsp2
    rcases hrest3 with ⟨hne, _⟩ | ⟨t3, hs2, hsp3⟩
    · exact List.noConfusion hne
    obtain ⟨_, hrest4⟩ := splitDots_cons_inv t3 g4 [] hsp3
    rcases hrest4 with ⟨_, ht3⟩ | ⟨u, _, hsplit⟩
    · rw [hs0, hs1, hs2, ht3]
      exact validate_ip_build o1 o2 o3 o4
    · exact absurd hsplit (splitDots_ne_nil u)

theorem dot_mem_of_splitDots : ∀ s : List Char, 2 ≤ (splitDots s).length → '.' ∈ s
  | [], h => by simp [splitDots] at h
  | c :: t, h => by
    by_cases hc : c = '.'
    · subst hc
      simp
    · apply List.mem_cons_of_mem
      unfold splitDots at h
      rw [if_neg hc] at h
      cases hs : splitDots t with
      | nil => exact absurd hs (splitDots_ne_nil t)
      | cons g gs =>
        rw [hs] at h
        have h' : 2 ≤ ((c :: g) :: gs).length := h
        apply dot_mem_of_splitDots t
        rw [hs]
        simp at h' ⊢
        omega

/-- Claim C7 counterexample: the auto/universal probe accepts 300.1.1.1,
whose first octet is not representable in 8 bits (the regex bounds only the
digit count, never the numeric value), and the wasapi probe accepts
abc.def, which is not an IPv4 address at all: none of the cited checks
enforces the claimed syntactic validity. -/
theorem c7_counterexample :
    validate_ip ("300.1.1.1".toList) = true ∧
    specValidIPv4 ("300.1.1.1".toList) = false ∧
    wasapi_ip_check ("abc.def".toList) = true ∧
    specValidIPv4 ("abc.def".toList) = false := by decide

/-- Claim C7 (amended): the acceptance tests are purely syntactic and
variant-dependent, and none enforces the 8-bit octet bound: the auto and
universal probes (validate_ip) accept a candidate exactly when it is four
dot-separated groups of one to three decimal digits, so out-of-range quads
such as 300.1.1.1 pass; the wasapi probe is weaker still, keeping any token
that merely contains a dot; every syntactically valid IPv4 address (four
octets, each at most 255) is accepted by all three probes. -/
theorem c7_ip_pattern (s : List Char) :
    (validate_ip s = true ↔
      ((splitDots s).length = 4 ∧ ∀ g ∈ splitDots s, octetText g = true)) ∧
    (specValidIPv4 s = true → validate_ip s = true) ∧
    (wasapi_ip_check s = true ↔ '.' ∈ s) ∧
    (specValidIPv4 s = true → wasapi_ip_check s = true) := by
  have hspec : specValidIPv4 s = true → validate_ip s = true := by
    intro hsv
    unfold specValidIPv4 at hsv
    rw [Bool.and_eq_true] at hsv
    obtain ⟨hlen, hall⟩ := hsv
    refine (validate_ip_iff s).mpr ⟨by simpa using hlen, ?_⟩
    intro g hg
    have hg' := List.all_eq_true.mp hall g hg
    rw [Bool.and_eq_true] at hg'
    exact hg'.1
  have hwas : wasapi_ip_check s = true ↔ '.' ∈ s := by
    simp [wasapi_ip_check]
  refine ⟨validate_ip_iff s, hspec, hwas, ?_⟩
  intro hsv
  rw [hwas]
  have hlen := ((validate_ip_iff s).mp (hspec hsv)).1
  exact dot_mem_of_splitDots s (by omega)

/-- Witness for c7_ip_pattern on a concrete address accepted by every
variant's probe. -/
theorem c7_ip_pattern_witness :
    ((splitDots ("10.0.0.1".toList)).length = 4 ∧
      ∀ g ∈ splitDots ("10.0.0.1".toList), octetText g = true) ∧
    validate_ip ("10.0.0.1".toList) = true ∧
    wasapi_ip_check ("10.0.0.1".toList) = true :=
  ⟨(c7_ip_pattern ("10.0.0.1".toList)).1.mp (by decide),
    (c7_ip_pattern ("10.0.0.1".toList)).2.1 (by decide),
    (c7_ip_pattern ("10.0.0.1".toList)).2.2.2 (by decide)⟩

/-- Claim C8 (confirmed): endpoint resolution is a total function of the
probe outcomes: the returned address is the validated query result, one of
the scanned private-range candidates, or the loopback address; when the
query fails (raise, nonzero returncode, empty or invalid output) and no
scan candidate responds, the result is exactly 127.0.0.1.  The universal
variant resolves to the query result or directly to loopback. -/
theorem c8_endpoint_resolution (env : SubprocessOutcome) (conn : List Char → Bool) :
    (wslQueryIp env = some (detect_wsl_ip_auto env conn) ∨
      detect_wsl_ip_auto env conn ∈ scanCandidates ∨
      detect_wsl_ip_auto env conn = "127.0.0.1".toList) ∧
    (wslQueryIp env = none → (∀ c ∈ scanCandidates, conn c = false) →
      detect_wsl_ip_auto env conn = "127.0.0.1".toList) ∧
    (wslQueryIp env = some (detect_wsl_ip_universal env) ∨
      detect_wsl_ip_universal env = "127.0.0.1".toList) := by
  refine ⟨?_, ?_, ?_⟩
  · unfold detect_wsl_ip_auto
    cases hq : wslQueryIp env with
    | some ip => exact Or.inl rfl
    | none =>
      cases hf : scanCandidates.find? conn with
      | some ip => exact Or.inr (Or.inl (List.mem_of_find?_eq_some hf))
      | none => exact Or.inr (Or.inr rfl)
  · intro hq hconn
    unfold detect_wsl_ip_auto
    rw [hq, List.find?_eq_none.mpr
      (fun x hx => by rw [hconn x hx]; exact Bool.false_ne_true)]
  · unfold detect_wsl_ip_universal
    cases hq : wslQueryIp env with
    | some ip => exact Or.inl rfl
    | none => exact Or.inr rfl

/-- Witness for c8_endpoint_resolution: a raising query and an unresponsive
scan resolve to the loopback address. -/
theorem c8_endpoint_resolution_witness :
    wslQueryIp ⟨true, 0, []⟩ = none ∧
    (∀ c ∈ scanCandidates, (fun _ => false) c = false) ∧
    detect_wsl_ip_auto ⟨true, 0, []⟩ (fun _ => false) = "127.0.0.1".toList :=
  ⟨rfl, fun _ _ => rfl,
    (c8_endpoint_resolution ⟨true, 0, []⟩ (fun _ => false)).2.1 rfl (fun _ _ => rfl)⟩
